import Mathlib

/-!
Shallow embedding of src/docs/js/slide-system.js.

The segmenter (createSlides) works on the ordered list of content elements
of the main container (control elements already filtered out); only the tag
kind of an element matters to segmentation, so content is a List Tag.
The navigator (showSlide / nextSlide / prevSlide, the mode-toggle click
handler and the hashchange handler) is embedded as explicit state passing
over a NavState record of the observable DOM/URL state.
-/

namespace SlideSystem

/-- Tag kind of a content element: rank-1 heading, rank-2 heading,
horizontal rule, or any other (payload) element. -/
inductive Tag : Type
  | H1 : Tag
  | H2 : Tag
  | HR : Tag
  | P : Tag
deriving DecidableEq, Repr

/-- Embeds content.findIndex(el => el.tagName === 'H1'): first index whose
tag is H1, scanning from running index i. -/
def findH1 : Nat → List Tag → Option Nat
  | _, [] => none
  | i, t :: rest => if t = Tag.H1 then some i else findH1 (i + 1) rest

/-- One step of the forEach loop body: for H2 at index i push i, for HR at
index i push i+1 when i+1 < L (HR followed by content), else nothing. -/
def breakAt (L i : Nat) (t : Tag) : Option Nat :=
  match t with
  | Tag.HR => if i + 1 < L then some (i + 1) else none
  | Tag.H2 => some i
  | _ => none

/-- Embeds the content.forEach loop collecting H2/HR break points, with the
running element index passed explicitly. -/
def feBps (L : Nat) : Nat → List Tag → List Nat
  | _, [] => []
  | i, t :: rest =>
    match breakAt L i t with
    | some b => b :: feBps L (i + 1) rest
    | none => feBps L (i + 1) rest

/-- slideBreakPoints as built by createSlides: the first H1 index (if any)
followed by the forEach break points, in push order. -/
def slideBreakPoints (content : List Tag) : List Nat :=
  (match findH1 0 content with
   | some i => [i]
   | none => []) ++ feBps content.length 0 content

/-- Break points with the end marker content.length appended. -/
def bpWithSentinel (content : List Tag) : List Nat :=
  slideBreakPoints content ++ [content.length]

/-- Consecutive pairs (bp[i], bp[i+1]) of a list, as scanned by the
slide-building for loop. -/
def pairsOf (l : List Nat) : List (Nat × Nat) :=
  l.zip l.tail

/-- content.slice(start, end) for 0 ≤ start, end ≤ content.length: empty
when end ≤ start, as in JS. -/
def sliceOf (content : List Tag) (p : Nat × Nat) : List Tag :=
  (content.drop p.1).take (p.2 - p.1)

/-- The keep condition of createSlides: slideContent.length > 0 and not
(length 1 with a single HR). -/
def passes (c : List Tag) : Bool :=
  decide (0 < c.length) && !(decide (c.length = 1) && decide (c.head? = some Tag.HR))

/-- The boundary pairs whose slice is kept as a slide. -/
def keptPairs (content : List Tag) : List (Nat × Nat) :=
  (pairsOf (bpWithSentinel content)).filter (fun p => passes (sliceOf content p))

/-- The slides produced by createSlides: each kept slice with its HR
elements dropped (HRs are never appended to the slide wrapper). -/
def slidesOf (content : List Tag) : List (List Tag) :=
  (keptPairs content).map (fun p => (sliceOf content p).filter (fun t => !decide (t = Tag.HR)))

/-- The loose content elements still in main after createSlides: elements
(indexed by position) that were not moved into any kept slide's range and
are not HRs (all remaining HRs are removed at the end of createSlides). -/
def residual (content : List Tag) : List Tag :=
  (content.enum.filter (fun q =>
      !((keptPairs content).any (fun p => decide (p.1 ≤ q.1) && decide (q.1 < p.2))) &&
      !decide (q.2 = Tag.HR))).map (fun q => q.2)

/-- The least break point (content.length when there are none): the index
from which onward content is covered by the slide-building loop. -/
def startIdx (content : List Tag) : Nat :=
  (slideBreakPoints content).foldr min content.length

/-- Observable navigator state: the mutable currentSlide index, the per
slide active class flags, the counter label text, the disabled flags of
the prev/next buttons, the per dot active class flags, and the URL
fragment. -/
structure NavState : Type where
  currentSlide : Nat
  activeFlags : List Bool
  counterText : String
  prevDisabled : Bool
  nextDisabled : Bool
  dotActive : List Bool
  hash : String
deriving DecidableEq, Repr

/-- showSlide(index): early return when index is out of [0, N); otherwise
the active class moves to slide index, currentSlide, counter, button
disabled flags and dot active classes are updated, and the fragment is set
to slide-(index+1). The loops over the slide list (length N) and the
existing dot elements are embedded as maps over ranges. -/
def showSlide (N : Nat) (s : NavState) (index : Int) : NavState :=
  if index < 0 ∨ (N : Int) ≤ index then s
  else
    { currentSlide := index.toNat,
      activeFlags := (List.range N).map (fun j => decide (j = index.toNat)),
      counterText := toString (index.toNat + 1) ++ " of " ++ toString N,
      prevDisabled := decide (index = 0),
      nextDisabled := decide (index = (N : Int) - 1),
      dotActive := (List.range s.dotActive.length).map (fun j => decide (j = index.toNat)),
      hash := "slide-" ++ toString (index.toNat + 1) }

/-- nextSlide(): showSlide(current+1) when current < N - 1 (JS number
arithmetic, so N - 1 is taken in Int). -/
def nextSlide (N : Nat) (s : NavState) : NavState :=
  if (s.currentSlide : Int) < (N : Int) - 1 then showSlide N s ((s.currentSlide : Int) + 1) else s

/-- prevSlide(): showSlide(current-1) when current > 0. -/
def prevSlide (N : Nat) (s : NavState) : NavState :=
  if 0 < s.currentSlide then showSlide N s ((s.currentSlide : Int) - 1) else s

/-- The navigator state right after createNavigation: currentSlide is the
initial 0, no slide carries the active class, the counter template reads
1 of N, both buttons enabled, min(N,10) inactive dots, and the fragment is
whatever the location currently holds. -/
def initNav (N : Nat) (hash : String) : NavState :=
  { currentSlide := 0,
    activeFlags := List.replicate N false,
    counterText := "1 of " ++ toString N,
    prevDisabled := false,
    nextDisabled := false,
    dotActive := List.replicate (min N 10) false,
    hash := hash }

/-- parseInt on a digit run. -/
def parseDigits (l : List Char) : Nat :=
  l.foldl (fun a c => a * 10 + (c.toNat - 48)) 0

/-- Does the character list start with the literal slide- ? -/
def startsSlideDash (l : List Char) : Bool :=
  match l with
  | 's' :: 'l' :: 'i' :: 'd' :: 'e' :: '-' :: _ => true
  | _ => false

/-- hash.match(/slide-(\d+)/) at one position: when the list starts with
slide- followed by at least one digit, the greedy digit run is captured
and parsed. -/
def matchHere (l : List Char) : Option Nat :=
  if startsSlideDash l then
    match (l.drop 6).takeWhile Char.isDigit with
    | [] => none
    | ds => some (parseDigits ds)
  else none

/-- hash.match(/slide-(\d+)/): the regex is unanchored, so the leftmost
position admitting a match wins. Returns the parsed capture group. -/
def slideMatch : List Char → Option Nat
  | [] => none
  | c :: rest =>
    match matchHere (c :: rest) with
    | some n => some n
    | none => slideMatch rest

/-- The initial-slide resolution on entry into slides mode: showSlide of
(parsed number - 1) when the fragment matches, else showSlide(0). -/
def entryShow (N : Nat) (s : NavState) (hash : String) : NavState :=
  match slideMatch hash.toList with
  | some n => showSlide N s ((n : Int) - 1)
  | none => showSlide N s 0

/-- The hashchange handler while in slides mode: showSlide of
(parsed number - 1) when the fragment matches, else nothing. -/
def hashchangeShow (N : Nat) (s : NavState) (hash : String) : NavState :=
  match slideMatch hash.toList with
  | some n => showSlide N s ((n : Int) - 1)
  | none => s

/-- The slide-building part of the mode state: the loose content elements
of main, the global slides list, and how many times the navigation
controls have been built. -/
structure ModeState : Type where
  mainContent : List Tag
  slides : List (List Tag)
  navBuilds : Nat
deriving DecidableEq, Repr

/-- Mode selected by a mode button. -/
inductive Mode : Type
  | docs : Mode
  | slides : Mode
deriving DecidableEq, Repr

/-- The slide-building portion of the mode-button click handler for
mode slides: when the global slides list is empty, createSlides and
createNavigation run (recomputing from the current loose content and
leaving the residual loose content in main); otherwise nothing. -/
def enterSlidesMode (st : ModeState) : ModeState :=
  if st.slides.length = 0 then
    { mainContent := residual st.mainContent,
      slides := slidesOf st.mainContent,
      navBuilds := st.navBuilds + 1 }
  else st

/-- One mode-button click: entering docs mode only clears the fragment and
touches none of the slide-building state. -/
def modeStep (st : ModeState) (m : Mode) : ModeState :=
  match m with
  | Mode.slides => enterSlidesMode st
  | Mode.docs => st

/-- A sequence of mode-button clicks. -/
def runModes (st : ModeState) (ms : List Mode) : ModeState :=
  ms.foldl modeStep st

lemma breakAt_some {L i b : Nat} {t : Tag} (h : breakAt L i t = some b) :
    b = i ∨ (b = i + 1 ∧ b < L) := by
  cases t <;> simp [breakAt] at h
  · left
    omega
  · rcases h with ⟨h1, h2⟩
    right
    omega

lemma findH1_some : ∀ (l : List Tag) (i h : Nat), findH1 i l = some h →
    i ≤ h ∧ l[h - i]? = some Tag.H1 := by
  intro l
  induction l with
  | nil => intro i h hf; simp [findH1] at hf
  | cons t rest ih =>
    intro i h hf
    by_cases ht : t = Tag.H1
    · rw [findH1, if_pos ht] at hf
      have hh : h = i := by injection hf; omega
      subst hh
      simp [ht]
    · rw [findH1, if_neg ht] at hf
      obtain ⟨h1, h2⟩ := ih (i + 1) h hf
      refine ⟨by omega, ?_⟩
      have hd : h - i = (h - (i + 1)) + 1 := by omega
      rw [hd]
      simpa using h2

lemma findH1_none : ∀ (l : List Tag) (i : Nat), (∀ t ∈ l, t ≠ Tag.H1) →
    findH1 i l = none := by
  intro l
  induction l with
  | nil => intro i _; rfl
  | cons t rest ih =>
    intro i hall
    rw [findH1, if_neg (hall t (by simp))]
    exact ih (i + 1) (fun x hx => hall x (by simp [hx]))

lemma feBps_ge : ∀ (l : List Tag) (L i x : Nat), x ∈ feBps L i l → i ≤ x := by
  intro l
  induction l with
  | nil => intro L i x hx; simp [feBps] at hx
  | cons t rest ih =>
    intro L i x hx
    rw [feBps] at hx
    cases hb : breakAt L i t with
    | none =>
      rw [hb] at hx
      have := ih L (i + 1) x hx
      omega
    | some b =>
      rw [hb] at hx
      rcases List.mem_cons.mp hx with hxb | hxr
      · subst hxb
        rcases breakAt_some hb with h1 | ⟨h1, _⟩ <;> omega
      · have := ih L (i + 1) x hxr
        omega

lemma feBps_lt : ∀ (l : List Tag) (L i x : Nat), x ∈ feBps L i l →
    x < i + l.length ∨ x < L := by
  intro l
  induction l with
  | nil => intro L i x hx; simp [feBps] at hx
  | cons t rest ih =>
    intro L i x hx
    rw [feBps] at hx
    cases hb : breakAt L i t with
    | none =>
      rw [hb] at hx
      rcases ih L (i + 1) x hx with h | h
      · left; simp at h ⊢; omega
      · right; exact h
    | some b =>
      rw [hb] at hx
      rcases List.mem_cons.mp hx with hxb | hxr
      · subst hxb
        rcases breakAt_some hb with h1 | ⟨h1, h2⟩
        · left; simp; omega
        · right; exact h2
      · rcases ih L (i + 1) x hxr with h | h
        · left; simp at h ⊢; omega
        · right; exact h

lemma feBps_pairwise : ∀ (l : List Tag) (L i : Nat),
    List.Pairwise (· ≤ ·) (feBps L i l) := by
  intro l
  induction l with
  | nil => intro L i; simp [feBps]
  | cons t rest ih =>
    intro L i
    rw [feBps]
    cases hb : breakAt L i t with
    | none => exact ih L (i + 1)
    | some b =>
      refine List.pairwise_cons.mpr ⟨?_, ih L (i + 1)⟩
      intro x hx
      have hxi := feBps_ge rest L (i + 1) x hx
      rcases breakAt_some hb with h1 | ⟨h1, _⟩ <;> omega

lemma feBps_mem_hr : ∀ (l : List Tag) (L i j : Nat), l[j]? = some Tag.HR →
    i + j + 1 < L → (i + j + 1) ∈ feBps L i l := by
  intro l
  induction l with
  | nil => intro L i j hj _; simp at hj
  | cons t rest ih =>
    intro L i j hj hlt
    cases j with
    | zero =>
      simp at hj
      subst hj
      rw [feBps]
      have : breakAt L i Tag.HR = some (i + 1) := by
        simp [breakAt]
        omega
      rw [this]
      simp
    | succ j' =>
      simp at hj
      have hmem := ih L (i + 1) j' hj (by omega)
      have heq : i + (j' + 1) + 1 = (i + 1) + j' + 1 := by omega
      rw [feBps]
      cases hb : breakAt L i t with
      | none => rw [heq]; exact hmem
      | some b => rw [heq]; exact List.mem_cons_of_mem b hmem

lemma pairsOf_mem : ∀ {l : List Nat} {s e : Nat}, (s, e) ∈ pairsOf l →
    s ∈ l ∧ e ∈ l := by
  intro l s e h
  have h2 := List.of_mem_zip h
  exact ⟨h2.1, List.mem_of_mem_tail h2.2⟩

lemma pairsOf_cons_cons (a b : Nat) (l : List Nat) :
    pairsOf (a :: b :: l) = (a, b) :: pairsOf (b :: l) := rfl

lemma pairsOf_bound : ∀ (l : List Nat), List.Pairwise (· ≤ ·) l →
    ∀ s e x, (s, e) ∈ pairsOf l → x ∈ l → s < x → e ≤ x := by
  intro l
  induction l with
  | nil => intro _ s e x hp _ _; simp [pairsOf] at hp
  | cons a l ih =>
    intro hpw s e x hp hx hsx
    cases l with
    | nil => simp [pairsOf] at hp
    | cons b l' =>
      rw [pairsOf_cons_cons] at hp
      obtain ⟨hab, hpw'⟩ := List.pairwise_cons.mp hpw
      rcases List.mem_cons.mp hp with hpe | hpr
      · have hs : s = a := congrArg Prod.fst hpe
        have he : e = b := congrArg Prod.snd hpe
        subst hs; subst he
        rcases List.mem_cons.mp hx with h1 | h1
        · omega
        · rcases List.mem_cons.mp h1 with h2 | h2
          · omega
          · exact (List.pairwise_cons.mp hpw').1 x h2
      · rcases List.mem_cons.mp hx with h1 | h1
        · exfalso
          have hsm : s ∈ b :: l' := (pairsOf_mem hpr).1
          have := hab s hsm
          omega
        · exact ih hpw' s e x hpr h1 hsx

lemma head?_take {α : Type} (l : List α) (k : Nat) (h : 0 < k) :
    (l.take k).head? = l.head? := by
  cases k with
  | zero => omega
  | succ k' => cases l <;> simp

lemma sliceOf_head {content : List Tag} {s e : Nat} (h : sliceOf content (s, e) ≠ []) :
    (sliceOf content (s, e)).head? = content[s]? ∧ s < e ∧ s < content.length := by
  have hes : 0 < e - s := by
    by_contra hc
    apply h
    simp only [sliceOf]
    have : e - s = 0 := by omega
    simp [this]
  have hdrop : content.drop s ≠ [] := by
    intro hc
    apply h
    simp [sliceOf, hc]
  refine ⟨?_, by omega, ?_⟩
  · rw [sliceOf, head?_take _ _ hes, List.head?_drop]
  · by_contra hc
    exact hdrop (List.drop_eq_nil_iff.mpr (by omega))

lemma flatten_slices (content : List Tag) : ∀ (l : List Nat) (a z : Nat),
    List.Pairwise (· ≤ ·) (a :: (l ++ [z])) →
    ((pairsOf (a :: (l ++ [z]))).map (fun p => sliceOf content p)).flatten =
      (content.drop a).take (z - a) := by
  intro l
  induction l with
  | nil =>
    intro a z _
    simp [pairsOf, sliceOf]
  | cons b l ih =>
    intro a z hpw
    simp only [List.cons_append] at hpw ⊢
    rw [pairsOf_cons_cons, List.map_cons, List.flatten_cons]
    obtain ⟨hab, hpw'⟩ := List.pairwise_cons.mp hpw
    have hab' : a ≤ b := hab b (by simp)
    have hbz : b ≤ z := (List.pairwise_cons.mp hpw').1 z (by simp)
    rw [ih b z hpw']
    have hdd : content.drop b = (content.drop a).drop (b - a) := by
      rw [List.drop_drop]
      congr 1
      omega
    rw [hdd, sliceOf]
    have harith : (b - a) + (z - b) = z - a := by omega
    rw [← harith, List.take_add]

lemma foldr_min_ge : ∀ (l : List Nat) (d a : Nat), a ≤ d → (∀ x ∈ l, a ≤ x) →
    a ≤ l.foldr min d := by
  intro l
  induction l with
  | nil => intro d a h _; simpa using h
  | cons b l ih =>
    intro d a h hall
    simp only [List.foldr_cons]
    exact le_min (hall b (by simp)) (ih d a h (fun x hx => hall x (by simp [hx])))

lemma not_passes {c : List Tag} (h : ¬ passes c = true) :
    c.filter (fun t => !decide (t = Tag.HR)) = [] := by
  cases c with
  | nil => rfl
  | cons x xs =>
    simp [passes] at h
    obtain ⟨h1, h2⟩ := h
    subst h1
    subst h2
    rfl

lemma flatten_stripped (content : List Tag) : ∀ (ps : List (Nat × Nat)),
    ((ps.filter (fun p => passes (sliceOf content p))).map
        (fun p => (sliceOf content p).filter (fun t => !decide (t = Tag.HR)))).flatten =
      ((ps.map (fun p => sliceOf content p)).flatten).filter (fun t => !decide (t = Tag.HR)) := by
  intro ps
  induction ps with
  | nil => rfl
  | cons p ps ih =>
    rw [List.map_cons, List.flatten_cons, List.filter_append, ← ih]
    by_cases hp : passes (sliceOf content p) = true
    · rw [List.filter_cons, if_pos hp, List.map_cons, List.flatten_cons]
    · rw [List.filter_cons, if_neg hp, not_passes hp, List.nil_append]

lemma feBps_lt_len (content : List Tag) :
    ∀ x ∈ feBps content.length 0 content, x < content.length := by
  intro x hx
  rcases feBps_lt content content.length 0 x hx with h | h
  · simpa using h
  · exact h

lemma feBps_sentinel_pairwise (content : List Tag) :
    List.Pairwise (· ≤ ·) (feBps content.length 0 content ++ [content.length]) := by
  refine List.pairwise_append.mpr ⟨feBps_pairwise content content.length 0,
    List.pairwise_singleton _ _, ?_⟩
  intro a ha b hb
  simp at hb
  subst hb
  exact le_of_lt (feBps_lt_len content a ha)

lemma flatten_all_slices (content : List Tag) :
    ((pairsOf (bpWithSentinel content)).map (fun p => sliceOf content p)).flatten =
      content.drop (startIdx content) := by
  have hT_pw := feBps_sentinel_pairwise content
  cases hh : findH1 0 content with
  | none =>
    cases hfe : feBps content.length 0 content with
    | nil =>
      simp [bpWithSentinel, slideBreakPoints, startIdx, hh, hfe, pairsOf, List.drop_length]
    | cons f0 fe' =>
      rw [hfe] at hT_pw
      simp only [List.cons_append] at hT_pw
      have hf0L : f0 < content.length := feBps_lt_len content f0 (by rw [hfe]; exact List.mem_cons_self f0 fe')
      have hf0X : f0 ≤ List.foldr min content.length fe' := by
        refine foldr_min_ge fe' content.length f0 (le_of_lt hf0L) ?_
        have hpw := feBps_pairwise content content.length 0
        rw [hfe] at hpw
        exact (List.pairwise_cons.mp hpw).1
      have hbp : bpWithSentinel content = f0 :: (fe' ++ [content.length]) := by
        simp [bpWithSentinel, slideBreakPoints, hh, hfe]
      have hstart : startIdx content = f0 := by
        simp only [startIdx, slideBreakPoints, hh, hfe, List.nil_append, List.foldr_cons]
        exact min_eq_left hf0X
      rw [hbp, hstart, flatten_slices content fe' f0 content.length hT_pw]
      exact List.take_of_length_le (by rw [List.length_drop])
  | some h1i =>
    have hget : content[h1i]? = some Tag.H1 := by
      have := (findH1_some content 0 h1i hh).2
      simpa using this
    have hh1L : h1i < content.length := by
      rcases List.getElem?_eq_some_iff.mp hget with ⟨h, _⟩
      exact h
    cases hfe : feBps content.length 0 content with
    | nil =>
      have hbp : bpWithSentinel content = [h1i, content.length] := by
        simp [bpWithSentinel, slideBreakPoints, hh, hfe]
      have hstart : startIdx content = h1i := by
        simp only [startIdx, slideBreakPoints, hh, hfe, List.foldr_cons, List.foldr_nil,
          List.append_nil]
        exact min_eq_left (le_of_lt hh1L)
      rw [hbp, hstart]
      simp only [pairsOf, List.zip, List.tail, List.zipWith, List.map_cons, List.map_nil,
        List.flatten_cons, List.flatten_nil, List.append_nil, sliceOf]
      exact List.take_of_length_le (by rw [List.length_drop])
    | cons f0 fe' =>
      rw [hfe] at hT_pw
      simp only [List.cons_append] at hT_pw
      have hf0L : f0 < content.length := feBps_lt_len content f0 (by rw [hfe]; exact List.mem_cons_self f0 fe')
      have hf0X : f0 ≤ List.foldr min content.length fe' := by
        refine foldr_min_ge fe' content.length f0 (le_of_lt hf0L) ?_
        have hpw := feBps_pairwise content content.length 0
        rw [hfe] at hpw
        exact (List.pairwise_cons.mp hpw).1
      have hbp : bpWithSentinel content = h1i :: f0 :: (fe' ++ [content.length]) := by
        simp [bpWithSentinel, slideBreakPoints, hh, hfe]
      rw [hbp, pairsOf_cons_cons, List.map_cons, List.flatten_cons,
        flatten_slices content fe' f0 content.length hT_pw]
      have hrest : List.take (content.length - f0) (content.drop f0) = content.drop f0 :=
        List.take_of_length_le (by rw [List.length_drop])
      rw [hrest]
      have hminf0 : min f0 (List.foldr min content.length fe') = f0 := min_eq_left hf0X
      by_cases hcmp : h1i ≤ f0
      · have hstart : startIdx content = h1i := by
          simp only [startIdx, slideBreakPoints, hh, hfe, List.cons_append, List.nil_append,
            List.foldr_cons]
          rw [hminf0]
          exact min_eq_left hcmp
        rw [hstart, sliceOf]
        have hdd : content.drop f0 = (content.drop h1i).drop (f0 - h1i) := by
          rw [List.drop_drop]
          congr 1
          omega
        rw [hdd]
        exact List.take_append_drop (f0 - h1i) (content.drop h1i)
      · have hstart : startIdx content = f0 := by
          simp only [startIdx, slideBreakPoints, hh, hfe, List.cons_append, List.nil_append,
            List.foldr_cons]
          rw [hminf0]
          exact min_eq_right (by omega)
        rw [hstart, sliceOf]
        have hz : f0 - h1i = 0 := by omega
        simp [hz]

/-- C1: corrected. The original claim (concatenating the slides recovers all
non-rule content, in particular content before the first boundary) fails:
createSlides only slices between consecutive break points, so content
preceding the least break point is never placed in a slide. The amended
statement proved here: concatenating the slides, in order, recovers
exactly the non-rule content from the least break point onward (all of it
when the least break point is 0, nothing when there is no break point),
with no node duplicated or lost. -/
theorem createSlides_concat_from_startIdx (content : List Tag) :
    (slidesOf content).flatten =
      (content.drop (startIdx content)).filter (fun t => !decide (t = Tag.HR)) := by
  simp only [slidesOf, keptPairs]
  rw [flatten_stripped content (pairsOf (bpWithSentinel content)),
    flatten_all_slices content]

/-- C1 counterexample: for content [P, H1] the paragraph before the H1
boundary is lost: the slides concatenate to [H1], not to the full non-rule
content [P, H1]. -/
theorem createSlides_concat_counterexample :
    (slidesOf [Tag.P, Tag.H1]).flatten = [Tag.H1] ∧
    ([Tag.P, Tag.H1].filter (fun t => !decide (t = Tag.HR))) = [Tag.P, Tag.H1] ∧
    (slidesOf [Tag.P, Tag.H1]).flatten ≠
      [Tag.P, Tag.H1].filter (fun t => !decide (t = Tag.HR)) := by
  refine ⟨by decide, by decide, by decide⟩

/-- C2: corrected. The original claim (content with no H1/H2/HR becomes one
slide with all nodes) fails: with no break points the sentinel is the only
entry, the slide-building loop performs no iteration, and zero slides are
produced. Amended statement proved here: such content yields no slides at
all. -/
theorem no_boundary_no_slides (content : List Tag)
    (h : Tag.H1 ∉ content ∧ Tag.H2 ∉ content ∧ Tag.HR ∉ content) :
    slidesOf content = [] := by
  obtain ⟨h1, h2, h3⟩ := h
  have hfind : findH1 0 content = none :=
    findH1_none content 0 (fun t ht he => h1 (he ▸ ht))
  have hfe : feBps content.length 0 content = [] := by
    have : ∀ (l : List Tag), (∀ t ∈ l, t ≠ Tag.H2 ∧ t ≠ Tag.HR) →
        ∀ i, feBps content.length i l = [] := by
      intro l
      induction l with
      | nil => intro _ _; rfl
      | cons t rest ih =>
        intro hall i
        have ht := hall t (by simp)
        have hb : breakAt content.length i t = none := by
          cases t
          · rfl
          · exact absurd rfl ht.1
          · exact absurd rfl ht.2
          · rfl
        rw [feBps, hb]
        exact ih (fun x hx => hall x (by simp [hx])) (i + 1)
    refine this content (fun t ht => ⟨fun he => h2 (he ▸ ht), fun he => h3 (he ▸ ht)⟩) 0
  simp [slidesOf, keptPairs, bpWithSentinel, slideBreakPoints, hfind, hfe, pairsOf]

/-- C2 witness: the amended theorem applied to the concrete boundary-free
content [P]. -/
theorem no_boundary_no_slides_witness : slidesOf [Tag.P] = [] :=
  no_boundary_no_slides [Tag.P] (by decide)

/-- C2 counterexample: content [P, P] has no H1, H2 or HR, yet segmentation
produces zero slides, not the single all-content slide the claim
requires. -/
theorem no_boundary_counterexample :
    (slidesOf [Tag.P, Tag.P]).length = 0 ∧
    slidesOf [Tag.P, Tag.P] ≠ [[Tag.P, Tag.P]] := by
  refine ⟨by decide, by decide⟩

/-- C6: confirmed. For content [H1, P, H2, P, HR, P, H2, P] the break
points are [0, 2, 5, 6], the sentinel-extended list is [0, 2, 5, 6, 8],
and exactly four slides [H1,P], [H2,P], [P], [H2,P] are produced in that
order. -/
theorem scenario_slides :
    slideBreakPoints [Tag.H1, Tag.P, Tag.H2, Tag.P, Tag.HR, Tag.P, Tag.H2, Tag.P] = [0, 2, 5, 6] ∧
    bpWithSentinel [Tag.H1, Tag.P, Tag.H2, Tag.P, Tag.HR, Tag.P, Tag.H2, Tag.P] = [0, 2, 5, 6, 8] ∧
    slidesOf [Tag.H1, Tag.P, Tag.H2, Tag.P, Tag.HR, Tag.P, Tag.H2, Tag.P] =
      [[Tag.H1, Tag.P], [Tag.H2, Tag.P], [Tag.P], [Tag.H2, Tag.P]] ∧
    (slidesOf [Tag.H1, Tag.P, Tag.H2, Tag.P, Tag.HR, Tag.P, Tag.H2, Tag.P]).length = 4 := by
  refine ⟨by decide, by decide, by decide, by decide⟩

/-- C9: confirmed. Every slide produced by createSlides is non-empty,
contains no rule node at all, and in particular is not a single rule node:
a candidate range that would strip to nothing must consist of rules only,
and the break point placed after each rule forces such a range to be a
single rule, which the keep condition discards. -/
theorem slide_nonempty_no_rule (content : List Tag) (sl : List Tag)
    (h : sl ∈ slidesOf content) : sl ≠ [] ∧ Tag.HR ∉ sl ∧ sl ≠ [Tag.HR] := by
  simp only [slidesOf] at h
  obtain ⟨p, hp, hslEq⟩ := List.mem_map.mp h
  simp only [keptPairs] at hp
  obtain ⟨hpmem, hpass⟩ := List.mem_filter.mp hp
  obtain ⟨s, e⟩ := p
  have hHRnot : Tag.HR ∉ sl := by
    rw [← hslEq]
    intro hmem
    have h2 := (List.mem_filter.mp hmem).2
    simp at h2
  refine ⟨?_, hHRnot, fun heq => hHRnot (by rw [heq]; exact List.mem_cons_self _ _)⟩
  intro hnil
  rw [← hslEq] at hnil
  have hcne : sliceOf content (s, e) ≠ [] := by
    intro hc
    rw [hc] at hpass
    exact absurd hpass (by decide)
  obtain ⟨hhead, hse, hsL⟩ := sliceOf_head hcne
  have hallHR : ∀ a ∈ sliceOf content (s, e), a = Tag.HR := by
    intro a ha
    have h2 := List.filter_eq_nil_iff.mp hnil a ha
    simpa using h2
  have hgetHR : content[s]? = some Tag.HR := by
    cases hsl2 : sliceOf content (s, e) with
    | nil => exact absurd hsl2 hcne
    | cons c0 ys =>
      have hc0 : c0 = Tag.HR := hallHR c0 (by rw [hsl2]; exact List.mem_cons_self _ _)
      rw [hsl2] at hhead
      rw [← hhead, hc0]
      rfl
  have hsplus : s + 1 ∈ feBps content.length 0 content ++ [content.length] := by
    by_cases hlt : s + 1 < content.length
    · refine List.mem_append.mpr (Or.inl ?_)
      have := feBps_mem_hr content content.length 0 s hgetHR (by omega)
      simpa using this
    · have hL : s + 1 = content.length := by omega
      exact List.mem_append.mpr (Or.inr (by simp [hL]))
  have he1 : e = s + 1 := by
    cases hh : findH1 0 content with
    | none =>
      have hbp : bpWithSentinel content =
          feBps content.length 0 content ++ [content.length] := by
        simp [bpWithSentinel, slideBreakPoints, hh]
      rw [hbp] at hpmem
      have hle := pairsOf_bound _ (feBps_sentinel_pairwise content) s e (s + 1)
        hpmem hsplus (by omega)
      omega
    | some h1i =>
      have hgetH1 : content[h1i]? = some Tag.H1 := by
        simpa using (findH1_some content 0 h1i hh).2
      have hbp : bpWithSentinel content =
          h1i :: (feBps content.length 0 content ++ [content.length]) := by
        simp [bpWithSentinel, slideBreakPoints, hh]
      rw [hbp] at hpmem
      cases hT : feBps content.length 0 content ++ [content.length] with
      | nil => simp at hT
      | cons t0 T2 =>
        rw [hT] at hpmem hsplus
        rw [pairsOf_cons_cons] at hpmem
        rcases List.mem_cons.mp hpmem with hpe | hpr
        · exfalso
          have hs : s = h1i := congrArg Prod.fst hpe
          rw [hs] at hgetHR
          rw [hgetHR] at hgetH1
          exact Tag.noConfusion (Option.some.inj hgetH1)
        · have hpw := feBps_sentinel_pairwise content
          rw [hT] at hpw
          have hle := pairsOf_bound (t0 :: T2) hpw s e (s + 1) hpr hsplus (by omega)
          omega
  have hds := List.head?_drop content s
  cases hdrop : content.drop s with
  | nil =>
    rw [hdrop, hgetHR] at hds
    exact Option.noConfusion hds
  | cons y ys =>
    rw [hdrop, hgetHR] at hds
    have hy : y = Tag.HR := by simpa using hds
    have hone : e - s = 1 := by omega
    have hslice : sliceOf content (s, e) = [Tag.HR] := by
      simp [sliceOf, hone, hdrop, hy]
    rw [hslice] at hpass
    exact absurd hpass (by decide)

/-- C9 witness: the theorem applied to the slide [H1] produced from the
content [H1]. -/
theorem slide_nonempty_no_rule_witness :
    [Tag.H1] ≠ ([] : List Tag) ∧ Tag.HR ∉ [Tag.H1] ∧ [Tag.H1] ≠ [Tag.HR] :=
  slide_nonempty_no_rule [Tag.H1] [Tag.H1] (by decide)

/-- C5: confirmed. For any index outside [0, N), showSlide returns the
state unchanged: current index, active-slide flags, counter, button
states, dot states and fragment are all as before. -/
theorem showSlide_out_of_range (N : Nat) (s : NavState) (index : Int)
    (h : index < 0 ∨ (N : Int) ≤ index) : showSlide N s index = s := by
  simp only [showSlide, if_pos h]

/-- C5 witness: showSlide 5 on a 3-slide navigator leaves the state
untouched. -/
theorem showSlide_out_of_range_witness :
    showSlide 3 (initNav 3 "") 5 = initNav 3 "" :=
  showSlide_out_of_range 3 (initNav 3 "") 5 (by decide)

/-- C7: confirmed. nextSlide at the last slide (current = N - 1) and
prevSlide at the first slide (current = 0) both return the state
unchanged. -/
theorem next_prev_noop_at_ends (N : Nat) (s : NavState) :
    ((s.currentSlide : Int) = (N : Int) - 1 → nextSlide N s = s) ∧
    (s.currentSlide = 0 → prevSlide N s = s) := by
  constructor
  · intro h
    have hc : ¬ ((s.currentSlide : Int) < (N : Int) - 1) := by omega
    simp only [nextSlide, if_neg hc]
  · intro h
    have hc : ¬ (0 < s.currentSlide) := by omega
    simp only [prevSlide, if_neg hc]

/-- C7 witness: on a 2-slide deck, nextSlide is a no-op at slide 1 and
prevSlide is a no-op in the initial state. -/
theorem next_prev_noop_at_ends_witness :
    nextSlide 2 (showSlide 2 (initNav 2 "") 1) = showSlide 2 (initNav 2 "") 1 ∧
    prevSlide 2 (initNav 2 "") = initNav 2 "" :=
  ⟨(next_prev_noop_at_ends 2 (showSlide 2 (initNav 2 "") 1)).1 (by decide),
   (next_prev_noop_at_ends 2 (initNav 2 "")).2 (by decide)⟩

lemma count_onehot (N i : Nat) :
    (((List.range N).map (fun j => decide (j = i))).count true) =
      if i < N then 1 else 0 := by
  induction N with
  | zero => simp
  | succ n ih =>
    rw [List.range_succ, List.map_append, List.count_append, ih]
    by_cases hni : n = i
    · subst hni
      simp
    · simp only [List.map_cons, List.map_nil]
      have h2 : (decide (n = i)) = false := by simp [hni]
      rw [h2]
      simp only [List.count_cons, List.count_nil]
      split_ifs <;> simp_all <;> omega

/-- C8: confirmed. For a valid index i, showSlide i is idempotent, and
after it exactly one slide (the one at i) is active, the counter reads
(i+1) of N, among the existing dots exactly dot i is active, and the
fragment is slide-(i+1). -/
theorem showSlide_idempotent (N : Nat) (s : NavState) (i : Nat) (h : i < N) :
    showSlide N (showSlide N s i) i = showSlide N s i ∧
    (showSlide N s i).currentSlide = i ∧
    (showSlide N s i).activeFlags.count true = 1 ∧
    (showSlide N s i).activeFlags[i]? = some true ∧
    (showSlide N s i).counterText = toString (i + 1) ++ " of " ++ toString N ∧
    (∀ j, j < (showSlide N s i).dotActive.length →
      (showSlide N s i).dotActive[j]? = some (decide (j = i))) ∧
    (showSlide N s i).hash = "slide-" ++ toString (i + 1) := by
  have hc : ¬ ((i : Int) < 0 ∨ (N : Int) ≤ (i : Int)) := by omega
  have hrec : showSlide N s i =
      ⟨i, (List.range N).map (fun j => decide (j = i)),
        toString (i + 1) ++ " of " ++ toString N,
        decide ((i : Int) = 0), decide ((i : Int) = (N : Int) - 1),
        (List.range s.dotActive.length).map (fun j => decide (j = i)),
        "slide-" ++ toString (i + 1)⟩ := by
    rw [showSlide, if_neg hc]
    simp [Int.toNat_natCast]
  refine ⟨?_, ?_, ?_, ?_, ?_, ?_, ?_⟩
  · rw [hrec, showSlide, if_neg hc]
    simp [Int.toNat_natCast]
  · rw [hrec]
  · rw [hrec]
    show ((List.range N).map (fun j => decide (j = i))).count true = 1
    rw [count_onehot]
    simp [h]
  · rw [hrec]
    show ((List.range N).map (fun j => decide (j = i)))[i]? = some true
    rw [List.getElem?_map, List.getElem?_range h]
    simp
  · rw [hrec]
  · rw [hrec]
    intro j hj
    simp only [List.length_map, List.length_range] at hj
    show ((List.range s.dotActive.length).map (fun j => decide (j = i)))[j]? = some (decide (j = i))
    rw [List.getElem?_map, List.getElem?_range hj]
    rfl
  · rw [hrec]

/-- C8 witness: the theorem applied at slide 1 of a 2-slide deck. -/
theorem showSlide_idempotent_witness :
    showSlide 2 (showSlide 2 (initNav 2 "") 1) 1 = showSlide 2 (initNav 2 "") 1 :=
  (showSlide_idempotent 2 (initNav 2 "") 1 (by decide)).1

/-- C10: confirmed. Fragment parsing is unanchored: a hash that merely
contains slide-<digits> as a substring, such as #my-slide-3-note, parses
to the first such number, and both the mode-entry resolution and the
hashchange handler then attempt to navigate to that slide; when several
occurrences exist the leftmost wins. -/
theorem fragment_match_unanchored (N : Nat) (s : NavState) :
    slideMatch "#my-slide-3-note".toList = some 3 ∧
    entryShow N s "#my-slide-3-note" = showSlide N s 2 ∧
    hashchangeShow N s "#my-slide-3-note" = showSlide N s 2 ∧
    slideMatch "#slide-7-slide-9".toList = some 7 := by
  have hm : slideMatch "#my-slide-3-note".toList = some 3 := by decide
  refine ⟨hm, ?_, ?_, by decide⟩
  · unfold entryShow
    rw [hm]
    norm_num
  · unfold hashchangeShow
    rw [hm]
    norm_num

/-- C3: corrected. The original claim (out-of-range parsed number falls
back to slide 0) fails: the handler calls showSlide(parsed - 1)
unconditionally when the fragment matches, and showSlide silently ignores
an out-of-range index, so no slide is shown and nothing falls back to
slide 0. Amended statement proved here: no match shows slide 0; a matched
in-range number n shows slide n - 1; a matched out-of-range number leaves
the state unchanged. -/
lemma entryShow_eq_some (N : Nat) (s : NavState) (h : String) (n : Nat)
    (hm : slideMatch h.toList = some n) :
    entryShow N s h = showSlide N s ((n : Int) - 1) := by
  unfold entryShow
  rw [hm]

theorem entry_resolution (N : Nat) (s : NavState) (h : String) :
    (slideMatch h.toList = none → entryShow N s h = showSlide N s 0) ∧
    (∀ n, slideMatch h.toList = some n → 1 ≤ n → n ≤ N →
      (entryShow N s h).currentSlide = n - 1 ∧
      (entryShow N s h).activeFlags = (List.range N).map (fun j => decide (j = n - 1))) ∧
    (∀ n, slideMatch h.toList = some n → (n = 0 ∨ N < n) → entryShow N s h = s) := by
  refine ⟨?_, ?_, ?_⟩
  · intro hm
    unfold entryShow
    rw [hm]
  · intro n hm h1 hn
    rw [entryShow_eq_some N s h n hm]
    have hc : ¬ (((n : Int) - 1) < 0 ∨ (N : Int) ≤ (n : Int) - 1) := by omega
    rw [showSlide, if_neg hc]
    have htn : ((n : Int) - 1).toNat = n - 1 := by omega
    rw [htn]
    exact ⟨rfl, rfl⟩
  · intro n hm hout
    rw [entryShow_eq_some N s h n hm]
    have hc : ((n : Int) - 1) < 0 ∨ (N : Int) ≤ (n : Int) - 1 := by omega
    rw [showSlide, if_pos hc]

/-- C3 witness: the amended theorem applied on a 3-slide deck with the
fragment slide-2, which resolves to slide index 1. -/
theorem entry_resolution_witness :
    (entryShow 3 (initNav 3 "#slide-2") "#slide-2").currentSlide = 1 :=
  ((entry_resolution 3 (initNav 3 "#slide-2") "#slide-2").2.1 2
    (by decide) (by decide) (by decide)).1

/-- C3 counterexample: entering a 3-slide deck with fragment #slide-99
leaves the freshly built navigator untouched (no slide active at all),
whereas the claim requires slide 0 to be shown; showing slide 0 would have
changed the active flags. -/
theorem entry_resolution_counterexample :
    entryShow 3 (initNav 3 "#slide-99") "#slide-99" = initNav 3 "#slide-99" ∧
    (initNav 3 "#slide-99").activeFlags.count true = 0 ∧
    entryShow 3 (initNav 3 "#slide-99") "#slide-99" ≠
      showSlide 3 (initNav 3 "#slide-99") 0 := by
  refine ⟨by decide, by decide, by decide⟩

/-- C4: corrected. The original claim (re-entry never rebuilds, even when
the first segmentation produced zero slides) fails: the build is guarded
by slides.length === 0, so a zero-slide first build makes every re-entry
run createSlides and createNavigation again. Amended statement proved
here: when the first activation produces at least one slide, any further
sequence of mode toggles leaves the whole slide-building state (slide
list, slide count, navigation builds) unchanged. -/
theorem segmentation_once (content : List Tag) (ms : List Mode)
    (h : slidesOf content ≠ []) :
    runModes (enterSlidesMode ⟨content, [], 0⟩) ms = enterSlidesMode ⟨content, [], 0⟩ := by
  have hfix : ∀ (st : ModeState), st.slides ≠ [] → ∀ (l : List Mode), runModes st l = st := by
    intro st hst l
    induction l with
    | nil => rfl
    | cons m l ih =>
      have hstep : modeStep st m = st := by
        cases m
        · rfl
        · simp only [modeStep, enterSlidesMode]
          rw [if_neg (fun hz => hst (List.length_eq_zero.mp hz))]
      show runModes (modeStep st m) l = st
      rw [hstep]
      exact ih
  refine hfix _ ?_ ms
  simp [enterSlidesMode]
  exact h

/-- C4 witness: the amended theorem on the one-slide content [H1] and a
single re-entry. -/
theorem segmentation_once_witness :
    runModes (enterSlidesMode ⟨[Tag.H1], [], 0⟩) [Mode.slides] =
      enterSlidesMode ⟨[Tag.H1], [], 0⟩ :=
  segmentation_once [Tag.H1] [Mode.slides] (by decide)

/-- C4 counterexample: for content [P] the first activation produces zero
slides, and a second activation runs the build again: the navigation
controls are built twice, contradicting the claim that re-entry never
rebuilds them. -/
theorem segmentation_once_counterexample :
    (enterSlidesMode ⟨[Tag.P], [], 0⟩).navBuilds = 1 ∧
    (runModes ⟨[Tag.P], [], 0⟩ [Mode.slides, Mode.docs, Mode.slides]).navBuilds = 2 := by
  refine ⟨by decide, by decide⟩

end SlideSystem
